import Mathlib

/-! ping_exporter: the snapshot collector and the startup reconciliation loop

A shallow embedding of `collector.go` (`pingCollector.Collect` and the metric
descriptors) and of the target loops of `main.go` (`startMonitor`, `refreshDNS`),
followed by the properties proved about them.

Conventions of the embedding.

* Go strings are Lean `String`s; the separator of `strings.SplitN` is the single
  character `' '`, so splitting the character list equals splitting the byte string.
* A Go `map[string]*mon.Metrics` is `Option (List (String × Metrics))`: `none` is the
  nil map, the list holds the entries. `range` visits the entries in an unspecified
  order; the order is an explicit argument of `Collect`.
* A `float64` is `F64`: a rational, NaN or a signed infinity. Rounding to the
  nearest representable value is a parameter (`Rounding`).
* A panic of `prometheus.MustNewConstMetric` is recorded in the channel state
  (`Chan.panicked`); once set, nothing more is sent.
-/

namespace PingExporter

/-! ## strings.SplitN -/

/-- Go `strings.Index(s, sep)` for a one-character `sep`, returned as the cut of `s`
at the first occurrence: `none` when `sep` is absent (`m < 0`), otherwise
`(s[:m], s[m+len(sep):])`. -/
def cutAt (sep : Char) : List Char → Option (List Char × List Char)
  | [] => none
  | c :: cs =>
    if c = sep then some ([], cs)
    else
      match cutAt sep cs with
      | none => none
      | some (a, rest) => some (c :: a, rest)

/-- The loop of Go `genSplit`: at most `k` cuts (`for i < n`), the unsplit remainder
is the last component (`a[i] = s`). -/
def splitLoop (sep : Char) : Nat → List Char → List (List Char)
  | 0, s => [s]
  | k + 1, s =>
    match cutAt sep s with
    | none => [s]
    | some (a, rest) => a :: splitLoop sep k rest

/-- Go `strings.SplitN(s, sep, n)` for a one-character separator and `n ≥ 0`:
`n == 0` gives nil, `n` is clamped to `len(s) + 1` (length in bytes), then
`splitLoop` makes at most `n - 1` cuts. -/
def SplitN (s : String) (sep : Char) (n : Nat) : List String :=
  if n = 0 then []
  else
    let n := if n > s.utf8ByteSize + 1 then s.utf8ByteSize + 1 else n
    (splitLoop sep (n - 1) s.data).map String.mk

/-- Number of space characters of a key. -/
def spaces (key : String) : Nat := key.data.count ' '

/-- The serialized form of a probe key, `host + " " + ip + " " + ipVersion`: the three
components joined by single spaces, which the `SplitN` of `Collect` takes apart. -/
def probeKey (host ip ipVersion : String) : String :=
  host ++ " " ++ ip ++ " " ++ ipVersion

/-! ## float64 -/

/-- A `float64` value: a finite number, NaN, or an infinity. -/
inductive F64 where
  | finite (q : ℚ)
  | nan
  | posInf
  | negInf
  deriving DecidableEq

/-- Rounding of an exact result to `float64`: monotone, and `0` and `1` are
representable. -/
structure Rounding where
  rnd : ℚ → ℚ
  mono : Monotone rnd
  zero : rnd 0 = 0
  one : rnd 1 = 1

/-- The rounding under which every value is representable. -/
def Rounding.exact : Rounding where
  rnd := id
  mono := monotone_id
  zero := rfl
  one := rfl

/-- Go `float64(n)` for a count `n`. -/
def F64.ofNat (R : Rounding) (n : Nat) : F64 := .finite (R.rnd n)

/-- Go `x / y` on `float64`: `0/0` and every operation on NaN is NaN, a nonzero
finite value over zero is an infinity of its sign, a finite quotient is rounded. -/
def F64.div (R : Rounding) : F64 → F64 → F64
  | .finite a, .finite b =>
    if b = 0 then
      if a = 0 then .nan else if 0 < a then .posInf else .negInf
    else .finite (R.rnd (a / b))
  | .nan, _ => .nan
  | _, .nan => .nan
  | .finite _, .posInf => .finite 0
  | .finite _, .negInf => .finite 0
  | .posInf, .finite b => if 0 ≤ b then .posInf else .negInf
  | .negInf, .finite b => if 0 ≤ b then .negInf else .posInf
  | .posInf, .posInf => .nan
  | .posInf, .negInf => .nan
  | .negInf, .posInf => .nan
  | .negInf, .negInf => .nan

/-- A finite value of the closed interval `[0, 1]`. -/
def F64.inUnitInterval : F64 → Prop
  | .finite q => 0 ≤ q ∧ q ≤ 1
  | _ => False

instance (x : F64) : Decidable x.inUnitInterval := by
  cases x <;> unfold F64.inUnitInterval <;> infer_instance

/-- Go `float64(x)` for a statistic `x` that is already a floating-point number of
milliseconds: the conversion is exact. -/
def F64.ofRat (q : ℚ) : F64 := .finite q

/-! ## collector.go -/

/-- Modelled from the spec: the declaration of `mon.Metrics` (package
`github.com/digineo/go-ping/monitor`) is not part of the repository. The fields are
those `Collect` reads; the spec gives `sent` and `lost` as counts and the five
round-trip statistics as durations, which `Collect` exports unconverted under
descriptors that read "in millis". -/
structure Metrics where
  PacketsSent : Nat
  PacketsLost : Nat
  Best : ℚ
  Worst : ℚ
  Median : ℚ
  Mean : ℚ
  StdDev : ℚ
  deriving DecidableEq

/-- What `prometheus.NewDesc(fqName, help, variableLabels, nil)` keeps. -/
structure Desc where
  fqName : String
  help : String
  variableLabels : List String
  deriving DecidableEq

/-- The constant `prefix` of `collector.go`. -/
def metricNs : String := "ping_"

def labelNames : List String := ["target", "ip", "ip_version"]

def rttDesc : Desc :=
  ⟨metricNs ++ "rtt_ms", "Round trip time in millis (deprecated)", labelNames ++ ["type"]⟩

def bestDesc : Desc := ⟨metricNs ++ "rtt_best_ms", "Best round trip time in millis", labelNames⟩

def worstDesc : Desc := ⟨metricNs ++ "rtt_worst_ms", "Worst round trip time in millis", labelNames⟩

def meanDesc : Desc := ⟨metricNs ++ "rtt_mean_ms", "Mean round trip time in millis", labelNames⟩

def medianDesc : Desc :=
  ⟨metricNs ++ "rtt_median_ms", "Median round trip time in millis", labelNames⟩

def stddevDesc : Desc :=
  ⟨metricNs ++ "rtt_std_deviation_ms", "Standard deviation in millis", labelNames⟩

def lossDesc : Desc := ⟨metricNs ++ "loss_percent", "Packet loss in percent", labelNames⟩

/-- The `prometheus.ValueType` constants. -/
inductive ValueType where
  | CounterValue
  | GaugeValue
  | UntypedValue
  deriving DecidableEq

/-- A constant metric: the sample one `MustNewConstMetric` call builds. -/
structure Metric where
  desc : Desc
  valueType : ValueType
  value : F64
  labelValues : List String
  deriving DecidableEq

/-- Go `prometheus.MustNewConstMetric(desc, valueType, value, labelValues...)`: the
label-cardinality check of `NewConstMetric` fails when the number of label values
differs from the number of variable labels of the descriptor, and the `Must` form
panics on that error (`.error`). The seven descriptors of this file are built from
constant valid names, so the `desc.err` check never fires. -/
def MustNewConstMetric (desc : Desc) (valueType : ValueType) (value : F64)
    (labelValues : List String) : Except String Metric :=
  if labelValues.length ≠ desc.variableLabels.length then
    .error "inconsistent label cardinality"
  else .ok ⟨desc, valueType, value, labelValues⟩

/-- State of the channel `ch` of `Collect`: the metrics sent so far, and the panic
that aborted the scrape, if any. -/
structure Chan where
  sent : List Metric
  panicked : Option String
  deriving DecidableEq

/-- The channel at the start of a scrape. -/
def Chan.empty : Chan := ⟨[], none⟩

/-- One statement `ch <- prometheus.MustNewConstMetric(...)`: after a panic nothing
runs; a failing constructor panics before anything is sent. -/
def Chan.send (ch : Chan) (m : Except String Metric) : Chan :=
  match ch.panicked with
  | some _ => ch
  | none =>
    match m with
    | .ok x => ⟨ch.sent ++ [x], none⟩
    | .error e => ⟨ch.sent, some e⟩

/-- Go `map[string]*mon.Metrics`: `none` is the nil map. The pointers stored by
`Monitor.Export` are never nil, so an entry holds the pointee. -/
abbrev MetricsMap := Option (List (String × Metrics))

/-- Go `len(m)` of a map; the nil map has length 0. -/
def len : MetricsMap → Nat
  | none => 0
  | some es => es.length

/-- The entries a `range` over the map visits. -/
def MetricsMap.entries : MetricsMap → List (String × Metrics)
  | none => []
  | some es => es

/-- The struct `pingCollector`; the field `monitor` is used only through
`p.monitor.Export()`, whose result is an argument of `Collect`. -/
structure pingCollector where
  metrics : MetricsMap
  deriving DecidableEq

/-- The body of the loop `for target, metrics := range p.metrics` of `Collect`. -/
def collectEntry (R : Rounding) (ch : Chan) (target : String) (metrics : Metrics) : Chan :=
  let l := SplitN target ' ' 3
  let ch :=
    if metrics.PacketsSent > metrics.PacketsLost then
      let ch := ch.send (MustNewConstMetric rttDesc .GaugeValue (F64.ofRat metrics.Best) (l ++ ["best"]))
      let ch := ch.send (MustNewConstMetric bestDesc .GaugeValue (F64.ofRat metrics.Best) l)
      let ch := ch.send (MustNewConstMetric rttDesc .GaugeValue (F64.ofRat metrics.Worst) (l ++ ["worst"]))
      let ch := ch.send (MustNewConstMetric worstDesc .GaugeValue (F64.ofRat metrics.Worst) l)
      let ch := ch.send (MustNewConstMetric rttDesc .GaugeValue (F64.ofRat metrics.Mean) (l ++ ["mean"]))
      let ch := ch.send (MustNewConstMetric meanDesc .GaugeValue (F64.ofRat metrics.Mean) l)
      let ch := ch.send (MustNewConstMetric rttDesc .GaugeValue (F64.ofRat metrics.Median) (l ++ ["median"]))
      let ch := ch.send (MustNewConstMetric medianDesc .GaugeValue (F64.ofRat metrics.Median) l)
      let ch := ch.send (MustNewConstMetric rttDesc .GaugeValue (F64.ofRat metrics.StdDev) (l ++ ["std_dev"]))
      ch.send (MustNewConstMetric stddevDesc .GaugeValue (F64.ofRat metrics.StdDev) l)
    else ch
  let loss := F64.div R (F64.ofNat R metrics.PacketsLost) (F64.ofNat R metrics.PacketsSent)
  ch.send (MustNewConstMetric lossDesc .GaugeValue loss l)

/-- The loop `for target, metrics := range p.metrics` of `Collect` over the entries
in visiting order. -/
def collectLoop (R : Rounding) (ch : Chan) (es : List (String × Metrics)) : Chan :=
  es.foldl (fun ch e => collectEntry R ch e.1 e.2) ch

/-- Go `(p *pingCollector) Collect(ch)`. `exported` is the result of
`p.monitor.Export()`; `order` gives the order in which `range` visits the entries of
the cache. Returns the collector after the call and the channel. -/
def Collect (R : Rounding) (order : List (String × Metrics) → List (String × Metrics))
    (p : pingCollector) (exported : MetricsMap) : pingCollector × Chan :=
  let metrics := exported
  let p : pingCollector := if len metrics > 0 then { p with metrics := metrics } else p
  if p.metrics = none ∨ len p.metrics = 0 then (p, Chan.empty)
  else
    (p, collectLoop R Chan.empty (order p.metrics.entries))

/-- The samples of a scrape that carry the labels of the cache key `key`: those whose
first three label values are the components of the key. -/
def emittedFor (key : String) (out : List Metric) : List Metric :=
  out.filter (fun s => s.labelValues.take 3 = SplitN key ' ' 3)

/-- The ten round-trip samples of one iteration, in the order the loop body sends
them, for the label values `l`. -/
def rttSamples (l : List String) (m : Metrics) : List Metric :=
  [⟨rttDesc, .GaugeValue, .finite m.Best, l ++ ["best"]⟩,
   ⟨bestDesc, .GaugeValue, .finite m.Best, l⟩,
   ⟨rttDesc, .GaugeValue, .finite m.Worst, l ++ ["worst"]⟩,
   ⟨worstDesc, .GaugeValue, .finite m.Worst, l⟩,
   ⟨rttDesc, .GaugeValue, .finite m.Mean, l ++ ["mean"]⟩,
   ⟨meanDesc, .GaugeValue, .finite m.Mean, l⟩,
   ⟨rttDesc, .GaugeValue, .finite m.Median, l ++ ["median"]⟩,
   ⟨medianDesc, .GaugeValue, .finite m.Median, l⟩,
   ⟨rttDesc, .GaugeValue, .finite m.StdDev, l ++ ["std_dev"]⟩,
   ⟨stddevDesc, .GaugeValue, .finite m.StdDev, l⟩]

/-- The loss sample of one iteration for the label values `l`. -/
def lossSample (R : Rounding) (l : List String) (m : Metrics) : Metric :=
  ⟨lossDesc, .GaugeValue, F64.div R (F64.ofNat R m.PacketsLost) (F64.ofNat R m.PacketsSent), l⟩

/-- Everything one iteration sends when no constructor fails. -/
def entrySamples (R : Rounding) (l : List String) (m : Metrics) : List Metric :=
  (if m.PacketsSent > m.PacketsLost then rttSamples l m else []) ++ [lossSample R l m]

/-- Everything the loop sends over the entries `es` when no constructor fails. -/
def loopSamples (R : Rounding) : List (String × Metrics) → List Metric
  | [] => []
  | e :: es => entrySamples R (SplitN e.1 ' ' 3) e.2 ++ loopSamples R es

/-! ## main.go -/

/-- The struct `target`, with the four fields the literal in `startMonitor` sets
(`addresses` is a `[]net.IP`, `delay` a `time.Duration` in nanoseconds). -/
structure target where
  host : String
  addresses : List String
  delay : Nat
  dns : String
  deriving DecidableEq

/-- Go `time.Millisecond`, in nanoseconds. -/
def Millisecond : Nat := 1000000

/-- What the target loops of `main.go` do, as a trace: a call
`t.addOrUpdateMonitor(monitor)` (with the target as it is passed), a logged error, a
logged information line, a goroutine started for one target, and the goroutine
`startDNSAutoRefresh` started over the slice of targets. -/
inductive Event (Err : Type) where
  | reconcile (t : target)
  | logError (e : Err)
  | logInfo (msg : String)
  | spawn (t : target)
  | spawnAutoRefresh (targets : List target)
  deriving DecidableEq

/-- What `startMonitor` and `refreshDNS` use and do not define: the result of
`ping.New("0.0.0.0", "::")`, the monitor `mon.New` builds (with `HistorySize` set),
the method `addOrUpdateMonitor` of `target.go` as a function of the target and the
monitor state giving both back with the error it returns, and the flag
`dns.nameserver`. -/
structure Env (Mon Err : Type) where
  pingNew : Except Err Unit
  newMonitor : Mon
  addOrUpdateMonitor : target → Mon → target × Mon × Option Err
  dnsNameServer : String

/-- State of the loop of `startMonitor`. -/
structure Run (Mon Err : Type) where
  monitor : Mon
  targets : List target
  trace : List (Event Err)

/-- The loop `for i, host := range cfg.Targets` of `startMonitor`, from index `i`. -/
def startLoop {Mon Err : Type} (env : Env Mon Err) : Nat → List String → Run Mon Err → Run Mon Err
  | _, [], st => st
  | i, host :: hosts, st =>
    let t : target :=
      { host := host, addresses := [], delay := 10 * i * Millisecond, dns := env.dnsNameServer }
    let r := env.addOrUpdateMonitor t st.monitor
    let trace := st.trace ++ [Event.reconcile t]
    let trace :=
      match r.2.2 with
      | some err => trace ++ [Event.logError err]
      | none => trace
    startLoop env (i + 1) hosts ⟨r.2.1, st.targets ++ [r.1], trace⟩

/-- What a call of `startMonitor` gives: the pair it returns and the trace. -/
structure StartResult (Mon Err : Type) where
  result : Except Err Mon
  trace : List (Event Err)

/-- Go `startMonitor(cfg)`, with `cfgTargets` for `cfg.Targets`. -/
def startMonitor {Mon Err : Type} (env : Env Mon Err) (cfgTargets : List String) :
    StartResult Mon Err :=
  match env.pingNew with
  | .error err => ⟨.error err, []⟩
  | .ok _ =>
    let st := startLoop env 0 cfgTargets ⟨env.newMonitor, [], []⟩
    ⟨.ok st.monitor, st.trace ++ [Event.spawnAutoRefresh st.targets]⟩

/-- Go `refreshDNS(targets, monitor)`: one information line and one goroutine per
target. The goroutines run later: see `refreshTask`. -/
def refreshDNS {Err : Type} : List target → List (Event Err)
  | [] => []
  | t :: ts => Event.logInfo "refreshing DNS" :: Event.spawn t :: refreshDNS ts

/-- The body of the goroutine `go func(ta *target)` of `refreshDNS`. -/
def refreshTask {Mon Err : Type} (env : Env Mon Err) (ta : target) (monitor : Mon) :
    Mon × List (Event Err) :=
  let r := env.addOrUpdateMonitor ta monitor
  match r.2.2 with
  | some err => (r.2.1, [Event.reconcile ta, Event.logError err])
  | none => (r.2.1, [Event.reconcile ta])

/-- The goroutines of one cycle, run one after the other in the order `sched`. -/
def runTasks {Mon Err : Type} (env : Env Mon Err) : List target → Mon → Mon × List (Event Err)
  | [], monitor => (monitor, [])
  | ta :: rest, monitor =>
    let r := refreshTask env ta monitor
    let r2 := runTasks env rest r.1
    (r2.1, r.2 ++ r2.2)

/-- The targets of the `addOrUpdateMonitor` calls of a trace, in order. -/
def reconcileCalls {Err : Type} : List (Event Err) → List target
  | [] => []
  | Event.reconcile t :: es => t :: reconcileCalls es
  | _ :: es => reconcileCalls es

/-- The targets of the goroutines a trace starts, in order. -/
def spawned {Err : Type} : List (Event Err) → List target
  | [] => []
  | Event.spawn t :: es => t :: spawned es
  | _ :: es => spawned es

/-- The errors a trace logs, in order. -/
def loggedErrors {Err : Type} : List (Event Err) → List Err
  | [] => []
  | Event.logError e :: es => e :: loggedErrors es
  | _ :: es => loggedErrors es

/-- The targets `startMonitor` builds from the configured hosts, from index `i`. -/
def initialTargets (dns : String) : Nat → List String → List target
  | _, [] => []
  | i, host :: hosts =>
    { host := host, addresses := [], delay := 10 * i * Millisecond, dns := dns }
      :: initialTargets dns (i + 1) hosts

/-- The monitor state after `addOrUpdateMonitor` has run once for each target of `ts`,
in order, starting from the state `monitor`. -/
def monitorAfter {Mon Err : Type} (env : Env Mon Err) : List target → Mon → Mon
  | [], monitor => monitor
  | t :: ts, monitor => monitorAfter env ts (env.addOrUpdateMonitor t monitor).2.1

/-- An environment in which the raw sockets of `ping.New` cannot be opened. -/
def failingPingEnv : Env Nat String where
  pingNew := .error "listen ip4:icmp 0.0.0.0: socket: operation not permitted"
  newMonitor := 0
  addOrUpdateMonitor := fun t monitor => (t, monitor + 1, none)
  dnsNameServer := ""

/-- An environment in which `ping.New` succeeds, the monitor state counts the calls of
`addOrUpdateMonitor`, and the resolution of the host `bad.invalid` fails. -/
def sampleEnv : Env Nat String where
  pingNew := .ok ()
  newMonitor := 0
  addOrUpdateMonitor := fun t monitor =>
    (t, monitor + 1, if t.host = "bad.invalid" then some "no such host" else none)
  dnsNameServer := ""

/-! ## Lemmas on splitting -/

theorem cutAt_eq_none {sep : Char} {s : List Char} (h : sep ∉ s) : cutAt sep s = none := by
  induction s with
  | nil => rfl
  | cons c cs ih =>
    have hc : c ≠ sep := fun e => h (by simp [e])
    have hcs : sep ∉ cs := fun e => h (by simp [e])
    simp [cutAt, hc, ih hcs]

theorem cutAt_append {sep : Char} {a : List Char} (b : List Char) (h : sep ∉ a) :
    cutAt sep (a ++ sep :: b) = some (a, b) := by
  induction a with
  | nil => simp [cutAt]
  | cons c cs ih =>
    have hc : c ≠ sep := fun e => h (by simp [e])
    have hcs : sep ∉ cs := fun e => h (by simp [e])
    simp [cutAt, hc, ih hcs]

theorem cutAt_some {sep : Char} {s a b : List Char} (h : cutAt sep s = some (a, b)) :
    s = a ++ sep :: b ∧ sep ∉ a := by
  induction s generalizing a with
  | nil => simp [cutAt] at h
  | cons c cs ih =>
    by_cases hc : c = sep
    · simp [cutAt, hc] at h
      obtain ⟨rfl, rfl⟩ := h
      simp [hc]
    · cases hcut : cutAt sep cs with
      | none => simp [cutAt, hc, hcut] at h
      | some r =>
        obtain ⟨a1, b1⟩ := r
        simp [cutAt, hc, hcut] at h
        obtain ⟨rfl, rfl⟩ := h
        obtain ⟨h1, h2⟩ := ih hcut
        refine ⟨by rw [h1]; rfl, ?_⟩
        intro hmem
        rcases List.mem_cons.mp hmem with e | e
        · exact hc e.symm
        · exact h2 e

theorem cutAt_none_count {sep : Char} {s : List Char} (h : cutAt sep s = none) :
    s.count sep = 0 := by
  induction s with
  | nil => rfl
  | cons c cs ih =>
    by_cases hc : c = sep
    · simp [cutAt, hc] at h
    · cases hcut : cutAt sep cs with
      | none =>
        rw [List.count_cons, ih hcut]
        simp [hc]
      | some r => simp [cutAt, hc, hcut] at h

theorem cutAt_some_count {sep : Char} {s a b : List Char} (h : cutAt sep s = some (a, b)) :
    s.count sep = b.count sep + 1 := by
  obtain ⟨h1, h2⟩ := cutAt_some h
  rw [h1, List.count_append, List.count_cons_self, List.count_eq_zero_of_not_mem h2]
  omega

theorem splitLoop_length (sep : Char) (k : Nat) (s : List Char) :
    (splitLoop sep k s).length = min k (s.count sep) + 1 := by
  induction k generalizing s with
  | zero => simp [splitLoop]
  | succ k ih =>
    cases hcut : cutAt sep s with
    | none => simp [splitLoop, hcut, cutAt_none_count hcut]
    | some r =>
      obtain ⟨a, b⟩ := r
      simp only [splitLoop, hcut, List.length_cons, ih, cutAt_some_count hcut]
      omega

theorem splitLoop_of_count_le (sep : Char) (k : Nat) (s : List Char) (h : s.count sep ≤ k) :
    splitLoop sep k s = splitLoop sep (s.count sep) s := by
  induction k generalizing s with
  | zero =>
    have h0 : s.count sep = 0 := by omega
    rw [h0]
  | succ k ih =>
    cases hcut : cutAt sep s with
    | none => rw [cutAt_none_count hcut]; simp [splitLoop, hcut]
    | some r =>
      obtain ⟨a, b⟩ := r
      have hc := cutAt_some_count hcut
      rw [hc]
      simp only [splitLoop, hcut]
      rw [ih b (by omega)]

/-- Joining the components with the separator gives the string back. -/
theorem splitLoop_intercalate (sep : Char) (k : Nat) (s : List Char) :
    [sep].intercalate (splitLoop sep k s) = s := by
  induction k generalizing s with
  | zero => simp [splitLoop, List.intercalate]
  | succ k ih =>
    cases hcut : cutAt sep s with
    | none => simp [splitLoop, hcut, List.intercalate]
    | some r =>
      obtain ⟨a, b⟩ := r
      obtain ⟨h1, _⟩ := cutAt_some hcut
      have hne : splitLoop sep k b ≠ [] := by
        intro e
        have := splitLoop_length sep k b
        rw [e] at this
        simp at this
      simp only [splitLoop, hcut]
      have hb := ih b
      cases hsl : splitLoop sep k b with
      | nil => exact absurd hsl hne
      | cons x xs =>
        rw [hsl] at hb
        rw [h1, ← hb]
        simp [List.intercalate, List.intersperse]

theorem utf8ByteSize_go_ge (cs : List Char) : cs.length ≤ String.utf8ByteSize.go cs := by
  induction cs with
  | nil => simp [String.utf8ByteSize.go]
  | cons c cs ih =>
    have := Char.utf8Size_pos c
    simp only [String.utf8ByteSize.go, List.length_cons]
    omega

theorem utf8ByteSize_ge (s : String) : s.data.length ≤ s.utf8ByteSize := by
  cases s with
  | mk cs => exact utf8ByteSize_go_ge cs

/-- The clamp of `n` to `len(s) + 1` never changes the result. -/
theorem SplitN_eq (s : String) (sep : Char) (n : Nat) (hn : 0 < n) :
    SplitN s sep n = (splitLoop sep (n - 1) s.data).map String.mk := by
  have hlen := utf8ByteSize_ge s
  have hcount : s.data.count sep ≤ s.data.length := List.count_le_length _ _
  unfold SplitN
  rw [if_neg (by omega)]
  by_cases hbig : n > s.utf8ByteSize + 1
  · simp only [hbig, if_true, Nat.add_sub_cancel]
    rw [splitLoop_of_count_le sep s.utf8ByteSize s.data (by omega),
      splitLoop_of_count_le sep (n - 1) s.data (by omega)]
  · simp only [hbig, if_false]

theorem SplitN_length (s : String) (sep : Char) (n : Nat) (hn : 0 < n) :
    (SplitN s sep n).length = min (n - 1) (s.data.count sep) + 1 := by
  rw [SplitN_eq s sep n hn, List.length_map, splitLoop_length]

theorem String_mk_injective : Function.Injective String.mk := by
  intro a b h
  injection h

theorem SplitN_injective (sep : Char) (n : Nat) (hn : 0 < n) (a b : String)
    (h : SplitN a sep n = SplitN b sep n) : a = b := by
  rw [SplitN_eq a sep n hn, SplitN_eq b sep n hn] at h
  have h2 := List.map_injective_iff.mpr String_mk_injective h
  have ha := splitLoop_intercalate sep (n - 1) a.data
  have hb := splitLoop_intercalate sep (n - 1) b.data
  rw [h2, hb] at ha
  exact String.ext ha.symm

theorem SplitN_three_length (key : String) :
    (SplitN key ' ' 3).length ≤ 3 ∧ ((SplitN key ' ' 3).length = 3 ↔ 2 ≤ spaces key) := by
  have h := SplitN_length key ' ' 3 (by decide)
  unfold spaces
  constructor <;> [skip; constructor] <;> omega

theorem SplitN_probeKey (host ip ipVersion : String) (hh : ' ' ∉ host.data)
    (hi : ' ' ∉ ip.data) : SplitN (probeKey host ip ipVersion) ' ' 3 = [host, ip, ipVersion] := by
  rw [SplitN_eq _ _ _ (by decide)]
  have hd : (probeKey host ip ipVersion).data
      = host.data ++ ' ' :: (ip.data ++ ' ' :: ipVersion.data) := by
    simp [probeKey, String.data_append]
  rw [hd]
  simp [splitLoop, cutAt_append _ hh, cutAt_append _ hi]

/-! ## Lemmas on the loop of Collect -/

theorem send_panicked (ch : Chan) (m : Except String Metric) (e : String)
    (h : ch.panicked = some e) : ch.send m = ch := by
  simp [Chan.send, h]

theorem collectEntry_panicked (R : Rounding) (ch : Chan) (key : String) (m : Metrics)
    (e : String) (h : ch.panicked = some e) : collectEntry R ch key m = ch := by
  unfold collectEntry
  by_cases hs : m.PacketsSent > m.PacketsLost
  · simp [hs, send_panicked _ _ e h]
  · simp [hs, send_panicked _ _ e h]

theorem collectEntry_good (R : Rounding) (sent : List Metric) (key : String) (m : Metrics)
    (h : (SplitN key ' ' 3).length = 3) :
    collectEntry R ⟨sent, none⟩ key m
      = ⟨sent ++ entrySamples R (SplitN key ' ' 3) m, none⟩ := by
  unfold collectEntry entrySamples
  by_cases hs : m.PacketsSent > m.PacketsLost
  · simp [hs, Chan.send, MustNewConstMetric, h, rttDesc, bestDesc, worstDesc, meanDesc,
      medianDesc, stddevDesc, lossDesc, labelNames, rttSamples, lossSample, F64.ofRat]
  · simp [hs, Chan.send, MustNewConstMetric, h, lossDesc, labelNames, lossSample]

theorem collectEntry_bad (R : Rounding) (sent : List Metric) (key : String) (m : Metrics)
    (h : (SplitN key ' ' 3).length ≠ 3) :
    collectEntry R ⟨sent, none⟩ key m = ⟨sent, some "inconsistent label cardinality"⟩ := by
  unfold collectEntry
  by_cases hs : m.PacketsSent > m.PacketsLost
  · simp [hs, Chan.send, MustNewConstMetric, h, rttDesc, bestDesc, worstDesc, meanDesc,
      medianDesc, stddevDesc, lossDesc, labelNames]
  · simp [hs, Chan.send, MustNewConstMetric, h, lossDesc, labelNames]

theorem collectLoop_panicked (R : Rounding) (ch : Chan) (es : List (String × Metrics))
    (e : String) (h : ch.panicked = some e) : collectLoop R ch es = ch := by
  induction es with
  | nil => rfl
  | cons x xs ih =>
    simp only [collectLoop, List.foldl_cons] at ih ⊢
    rw [collectEntry_panicked R ch x.1 x.2 e h]
    exact ih

theorem collectLoop_good (R : Rounding) (sent : List Metric) (es : List (String × Metrics))
    (h : ∀ e ∈ es, (SplitN e.1 ' ' 3).length = 3) :
    collectLoop R ⟨sent, none⟩ es = ⟨sent ++ loopSamples R es, none⟩ := by
  induction es generalizing sent with
  | nil => simp [collectLoop, loopSamples]
  | cons x xs ih =>
    have hx := h x (List.mem_cons_self _ _)
    have hxs : ∀ e ∈ xs, (SplitN e.1 ' ' 3).length = 3 :=
      fun e he => h e (List.mem_cons_of_mem _ he)
    have := ih (sent ++ entrySamples R (SplitN x.1 ' ' 3) x.2) hxs
    simp only [collectLoop, List.foldl_cons] at this ⊢
    rw [collectEntry_good R sent x.1 x.2 hx, this]
    simp [loopSamples]

theorem collectLoop_bad (R : Rounding) (sent : List Metric) (es : List (String × Metrics))
    (h : ∃ e ∈ es, (SplitN e.1 ' ' 3).length ≠ 3) :
    (collectLoop R ⟨sent, none⟩ es).panicked = some "inconsistent label cardinality" := by
  induction es generalizing sent with
  | nil => simp at h
  | cons x xs ih =>
    by_cases hx : (SplitN x.1 ' ' 3).length = 3
    · have hxs : ∃ e ∈ xs, (SplitN e.1 ' ' 3).length ≠ 3 := by
        obtain ⟨e, he, hne⟩ := h
        rcases List.mem_cons.mp he with rfl | he
        · exact absurd hx hne
        · exact ⟨e, he, hne⟩
      have := ih (sent ++ entrySamples R (SplitN x.1 ' ' 3) x.2) hxs
      simp only [collectLoop, List.foldl_cons] at this ⊢
      rw [collectEntry_good R sent x.1 x.2 hx]
      exact this
    · have := collectLoop_panicked R ⟨sent, some "inconsistent label cardinality"⟩ xs _ rfl
      simp only [collectLoop, List.foldl_cons] at this ⊢
      rw [collectEntry_bad R sent x.1 x.2 hx, this]

/-- The loop completes without a panic exactly when every key splits in three. -/
theorem collectLoop_panicked_none_iff (R : Rounding) (sent : List Metric)
    (es : List (String × Metrics)) :
    (collectLoop R ⟨sent, none⟩ es).panicked = none
      ↔ ∀ e ∈ es, (SplitN e.1 ' ' 3).length = 3 := by
  constructor
  · intro h
    by_contra hne
    push_neg at hne
    rw [collectLoop_bad R sent es hne] at h
    exact absurd h (by simp)
  · intro h
    rw [collectLoop_good R sent es h]

theorem take_entrySamples (R : Rounding) (l : List String) (m : Metrics)
    (hl : l.length = 3) : ∀ s ∈ entrySamples R l m, s.labelValues.take 3 = l := by
  intro s hs
  have ht : ∀ t : String, (l ++ [t]).take 3 = l := by
    intro t
    rw [List.take_append_of_le_length (by omega), List.take_of_length_le (by omega)]
  have h0 : l.take 3 = l := List.take_of_length_le (by omega)
  unfold entrySamples at hs
  rcases List.mem_append.mp hs with h | h
  · by_cases hgt : m.PacketsSent > m.PacketsLost
    · simp only [hgt, if_true, rttSamples, List.mem_cons, List.mem_singleton,
        List.not_mem_nil, or_false] at h
      rcases h with h | h | h | h | h | h | h | h | h | h <;> subst h <;>
        first | exact ht _ | exact h0
    · simp [hgt] at h
  · simp only [List.mem_singleton] at h
    subst h
    exact h0

theorem emittedFor_append (key : String) (a b : List Metric) :
    emittedFor key (a ++ b) = emittedFor key a ++ emittedFor key b := by
  simp [emittedFor]

theorem emittedFor_entrySamples_self (R : Rounding) (key : String) (m : Metrics)
    (h : (SplitN key ' ' 3).length = 3) :
    emittedFor key (entrySamples R (SplitN key ' ' 3) m) = entrySamples R (SplitN key ' ' 3) m := by
  unfold emittedFor
  rw [List.filter_eq_self]
  intro s hs
  simp [take_entrySamples R _ m h s hs]

theorem emittedFor_entrySamples_other (R : Rounding) (key other : String) (m : Metrics)
    (h : (SplitN other ' ' 3).length = 3) (hne : other ≠ key) :
    emittedFor key (entrySamples R (SplitN other ' ' 3) m) = [] := by
  unfold emittedFor
  rw [List.filter_eq_nil_iff]
  intro s hs
  rw [take_entrySamples R _ m h s hs]
  simp only [decide_eq_true_eq]
  intro heq
  exact hne (SplitN_injective ' ' 3 (by decide) other key heq)

theorem emittedFor_loopSamples_absent (R : Rounding) (es : List (String × Metrics))
    (key : String) (hwf : ∀ e ∈ es, (SplitN e.1 ' ' 3).length = 3)
    (habs : key ∉ es.map Prod.fst) : emittedFor key (loopSamples R es) = [] := by
  induction es with
  | nil => rfl
  | cons x xs ih =>
    have hx := hwf x (List.mem_cons_self _ _)
    have hxs : ∀ e ∈ xs, (SplitN e.1 ' ' 3).length = 3 :=
      fun e he => hwf e (List.mem_cons_of_mem _ he)
    simp only [List.map_cons, List.mem_cons, not_or] at habs
    simp only [loopSamples, emittedFor_append]
    rw [emittedFor_entrySamples_other R key x.1 x.2 hx (fun e => habs.1 e.symm), ih hxs habs.2]
    rfl

theorem emittedFor_loopSamples (R : Rounding) (es : List (String × Metrics))
    (key : String) (m : Metrics) (hwf : ∀ e ∈ es, (SplitN e.1 ' ' 3).length = 3)
    (hnd : (es.map Prod.fst).Nodup) (hmem : (key, m) ∈ es) :
    emittedFor key (loopSamples R es) = entrySamples R (SplitN key ' ' 3) m := by
  induction es with
  | nil => simp at hmem
  | cons x xs ih =>
    have hx := hwf x (List.mem_cons_self _ _)
    have hxs : ∀ e ∈ xs, (SplitN e.1 ' ' 3).length = 3 :=
      fun e he => hwf e (List.mem_cons_of_mem _ he)
    simp only [List.map_cons, List.nodup_cons] at hnd
    simp only [loopSamples, emittedFor_append]
    rcases List.mem_cons.mp hmem with hhead | htail
    · subst hhead
      rw [emittedFor_entrySamples_self R key m hx,
        emittedFor_loopSamples_absent R xs key hxs hnd.1]
      simp
    · have hne : x.1 ≠ key := by
        intro e
        apply hnd.1
        rw [e]
        exact List.mem_map.mpr ⟨(key, m), htail, rfl⟩
      rw [emittedFor_entrySamples_other R key x.1 x.2 hx hne, ih hxs hnd.2 htail]
      rfl

/-! ## Lemmas on Collect -/

theorem Collect_fst (R : Rounding) (order : List (String × Metrics) → List (String × Metrics))
    (p : pingCollector) (exported : MetricsMap) :
    (Collect R order p exported).1 = if len exported > 0 then ⟨exported⟩ else p := by
  unfold Collect
  by_cases h : len exported > 0 <;> simp only [h, if_true, if_false] <;> split <;> rfl

theorem len_eq_zero_entries (c : MetricsMap) (h : c = none ∨ len c = 0) : c.entries = [] := by
  cases c with
  | none => rfl
  | some es =>
    rcases h with h | h
    · simp at h
    · simpa [len, MetricsMap.entries] using h

theorem Collect_snd (R : Rounding) (order : List (String × Metrics) → List (String × Metrics))
    (p : pingCollector) (exported : MetricsMap) (horder : ∀ es, (order es).Perm es) :
    (Collect R order p exported).2
      = collectLoop R Chan.empty (order (Collect R order p exported).1.metrics.entries) := by
  have hnil : order [] = [] := List.Perm.eq_nil (horder [])
  unfold Collect
  by_cases h : len exported > 0 <;> simp only [h, if_true, if_false] <;> split
  all_goals first
    | rfl
    | (rename_i hc
       simp only [len_eq_zero_entries _ hc, hnil]
       rfl)

/-- The samples a completed scrape carries for a key of the cache are those of the
iteration of that key, whatever order `range` takes. -/
theorem Collect_emittedFor (R : Rounding)
    (order : List (String × Metrics) → List (String × Metrics))
    (p : pingCollector) (exported : MetricsMap) (key : String) (m : Metrics)
    (horder : ∀ es, (order es).Perm es)
    (hkeys : ((Collect R order p exported).1.metrics.entries.map Prod.fst).Nodup)
    (hmem : (key, m) ∈ (Collect R order p exported).1.metrics.entries)
    (hdone : (Collect R order p exported).2.panicked = none) :
    (SplitN key ' ' 3).length = 3 ∧
    emittedFor key (Collect R order p exported).2.sent = entrySamples R (SplitN key ' ' 3) m := by
  rw [Collect_snd R order p exported horder] at hdone ⊢
  have hperm := horder (Collect R order p exported).1.metrics.entries
  have hwf := (collectLoop_panicked_none_iff R [] _).mp hdone
  have hk : (SplitN key ' ' 3).length = 3 := hwf (key, m) (hperm.mem_iff.mpr hmem)
  refine ⟨hk, ?_⟩
  rw [show Chan.empty = ⟨[], none⟩ from rfl, collectLoop_good R [] _ hwf]
  simp only [List.nil_append]
  exact emittedFor_loopSamples R _ key m hwf ((hperm.map Prod.fst).nodup_iff.mpr hkeys)
    (hperm.mem_iff.mpr hmem)

theorem loopSamples_perm (R : Rounding) {es₁ es₂ : List (String × Metrics)}
    (h : es₁.Perm es₂) : (loopSamples R es₁).Perm (loopSamples R es₂) := by
  induction h with
  | nil => exact List.Perm.refl _
  | cons x _ ih => exact List.Perm.append_left _ ih
  | swap x y l =>
    simp only [loopSamples, ← List.append_assoc]
    exact List.Perm.append_right _ List.perm_append_comm
  | trans _ _ ih₁ ih₂ => exact ih₁.trans ih₂

theorem rnd_nat_pos (R : Rounding) (n : Nat) (h : 0 < n) : 0 < R.rnd n := by
  have h1 : (1 : ℚ) ≤ n := by exact_mod_cast h
  have := R.mono h1
  rw [R.one] at this
  linarith

theorem rnd_nat_nonneg (R : Rounding) (n : Nat) : 0 ≤ R.rnd n := by
  have h0 : (0 : ℚ) ≤ n := by exact_mod_cast Nat.zero_le n
  have := R.mono h0
  rw [R.zero] at this
  exact this

theorem loss_value_pos (R : Rounding) (lost sent : Nat) (h : 0 < sent) :
    F64.div R (F64.ofNat R lost) (F64.ofNat R sent)
      = .finite (R.rnd (R.rnd lost / R.rnd sent)) := by
  have := rnd_nat_pos R sent h
  simp [F64.div, F64.ofNat, ne_of_gt this]

theorem loss_value_zero (R : Rounding) (lost : Nat) :
    F64.div R (F64.ofNat R lost) (F64.ofNat R 0)
      = if lost = 0 then .nan else .posInf := by
  by_cases hl : lost = 0
  · subst hl
    simp [F64.div, F64.ofNat, R.zero]
  · have := rnd_nat_pos R lost (Nat.pos_of_ne_zero hl)
    simp [F64.div, F64.ofNat, R.zero, hl, ne_of_gt this, this]

theorem loss_quotient_bounds (R : Rounding) (lost sent : Nat) (h : 0 < sent)
    (hle : lost ≤ sent) :
    0 ≤ R.rnd (R.rnd lost / R.rnd sent) ∧ R.rnd (R.rnd lost / R.rnd sent) ≤ 1 := by
  have hs := rnd_nat_pos R sent h
  have hl := rnd_nat_nonneg R lost
  have hls : R.rnd lost ≤ R.rnd sent := R.mono (by exact_mod_cast hle)
  have h0 : (0 : ℚ) ≤ R.rnd lost / R.rnd sent := div_nonneg hl (le_of_lt hs)
  have h1 : R.rnd lost / R.rnd sent ≤ 1 := (div_le_one hs).mpr hls
  have a := R.mono h0
  have b := R.mono h1
  rw [R.zero] at a
  rw [R.one] at b
  exact ⟨a, b⟩

theorem rttSamples_desc (l : List String) (m : Metrics) :
    ∀ s ∈ rttSamples l m,
      s.desc ≠ lossDesc ∧ s.desc.variableLabels.take 3 = ["target", "ip", "ip_version"] := by
  intro s hs
  simp only [rttSamples, List.mem_cons, List.mem_singleton, List.not_mem_nil, or_false] at hs
  rcases hs with h | h | h | h | h | h | h | h | h | h <;> subst h <;>
    exact ⟨by dsimp only; decide, rfl⟩

theorem entrySamples_mem (R : Rounding) (l : List String) (m : Metrics) (s : Metric)
    (hs : s ∈ entrySamples R l m) :
    (s ∈ rttSamples l m ∧ m.PacketsSent > m.PacketsLost) ∨ s = lossSample R l m := by
  unfold entrySamples at hs
  rcases List.mem_append.mp hs with h | h
  · by_cases hgt : m.PacketsSent > m.PacketsLost
    · simp only [hgt, if_true] at h
      exact Or.inl ⟨h, hgt⟩
    · simp [hgt] at h
  · exact Or.inr (List.mem_singleton.mp h)

/-! ## Properties of Collect -/

/-- C1, as stated, fails: with the single cache entry `example.com 93.184.216.34 4`
whose statistics have `sent = 0` (and `lost = 0`), `Collect` does emit a loss sample
for the key, and its value is NaN. -/
theorem collect_zero_sent_emits_nan :
    (Collect Rounding.exact id ⟨none⟩
        (some [("example.com 93.184.216.34 4", ⟨0, 0, 0, 0, 0, 0, 0⟩)])).2
      = ⟨[⟨lossDesc, .GaugeValue, .nan, ["example.com", "93.184.216.34", "4"]⟩], none⟩ := by
  decide

/-- C1, amended: for every entry of the cache whose statistics have `sent = 0`, a
scrape that completes emits no round-trip sample for the key and exactly one loss
sample, labelled with the components of the key, whose value is not a number: NaN
when `lost = 0` and `+Inf` otherwise. -/
theorem collect_zero_sent (R : Rounding)
    (order : List (String × Metrics) → List (String × Metrics))
    (p : pingCollector) (exported : MetricsMap) (key : String) (m : Metrics)
    (horder : ∀ es, (order es).Perm es)
    (hkeys : ((Collect R order p exported).1.metrics.entries.map Prod.fst).Nodup)
    (hmem : (key, m) ∈ (Collect R order p exported).1.metrics.entries)
    (hdone : (Collect R order p exported).2.panicked = none)
    (hzero : m.PacketsSent = 0) :
    emittedFor key (Collect R order p exported).2.sent
      = [⟨lossDesc, .GaugeValue, if m.PacketsLost = 0 then .nan else .posInf,
          SplitN key ' ' 3⟩] := by
  rw [(Collect_emittedFor R order p exported key m horder hkeys hmem hdone).2]
  simp [entrySamples, lossSample, hzero, loss_value_zero]

theorem collect_zero_sent_witness :
    emittedFor "h 10.0.0.1 4"
        (Collect Rounding.exact id ⟨none⟩ (some [("h 10.0.0.1 4", ⟨0, 2, 0, 0, 0, 0, 0⟩)])).2.sent
      = [⟨lossDesc, .GaugeValue, if (2 : Nat) = 0 then .nan else .posInf,
          SplitN "h 10.0.0.1 4" ' ' 3⟩] :=
  collect_zero_sent Rounding.exact id ⟨none⟩ (some [("h 10.0.0.1 4", ⟨0, 2, 0, 0, 0, 0, 0⟩)])
    "h 10.0.0.1 4" ⟨0, 2, 0, 0, 0, 0, 0⟩ (fun es => List.Perm.refl es)
    (by decide) (by decide) (by decide) rfl

/-- C2: for every entry of the cache whose key splits into `host`, `ip`, `ipVersion`
and whose statistics have `sent > lost`, a scrape that completes emits for the key
exactly the ten round-trip samples (each statistic once under the legacy descriptor
with its type tag and once under its dedicated descriptor, both with the value of the
statistic) followed by one loss sample; the loss is 0 when `lost = 0`. The descriptors
carry the names and label names listed last. -/
theorem collect_full_success (R : Rounding)
    (order : List (String × Metrics) → List (String × Metrics))
    (p : pingCollector) (exported : MetricsMap) (key host ip ipVersion : String) (m : Metrics)
    (horder : ∀ es, (order es).Perm es)
    (hkeys : ((Collect R order p exported).1.metrics.entries.map Prod.fst).Nodup)
    (hmem : (key, m) ∈ (Collect R order p exported).1.metrics.entries)
    (hdone : (Collect R order p exported).2.panicked = none)
    (hkey : SplitN key ' ' 3 = [host, ip, ipVersion])
    (hsent : m.PacketsSent > m.PacketsLost) :
    emittedFor key (Collect R order p exported).2.sent
      = [⟨rttDesc, .GaugeValue, .finite m.Best, [host, ip, ipVersion, "best"]⟩,
         ⟨bestDesc, .GaugeValue, .finite m.Best, [host, ip, ipVersion]⟩,
         ⟨rttDesc, .GaugeValue, .finite m.Worst, [host, ip, ipVersion, "worst"]⟩,
         ⟨worstDesc, .GaugeValue, .finite m.Worst, [host, ip, ipVersion]⟩,
         ⟨rttDesc, .GaugeValue, .finite m.Mean, [host, ip, ipVersion, "mean"]⟩,
         ⟨meanDesc, .GaugeValue, .finite m.Mean, [host, ip, ipVersion]⟩,
         ⟨rttDesc, .GaugeValue, .finite m.Median, [host, ip, ipVersion, "median"]⟩,
         ⟨medianDesc, .GaugeValue, .finite m.Median, [host, ip, ipVersion]⟩,
         ⟨rttDesc, .GaugeValue, .finite m.StdDev, [host, ip, ipVersion, "std_dev"]⟩,
         ⟨stddevDesc, .GaugeValue, .finite m.StdDev, [host, ip, ipVersion]⟩,
         ⟨lossDesc, .GaugeValue, .finite (R.rnd (R.rnd m.PacketsLost / R.rnd m.PacketsSent)),
           [host, ip, ipVersion]⟩]
    ∧ (m.PacketsLost = 0 → R.rnd (R.rnd m.PacketsLost / R.rnd m.PacketsSent) = 0)
    ∧ [rttDesc, bestDesc, worstDesc, meanDesc, medianDesc, stddevDesc, lossDesc].map
          (fun d => (d.fqName, d.variableLabels))
        = [("ping_rtt_ms", ["target", "ip", "ip_version", "type"]),
           ("ping_rtt_best_ms", ["target", "ip", "ip_version"]),
           ("ping_rtt_worst_ms", ["target", "ip", "ip_version"]),
           ("ping_rtt_mean_ms", ["target", "ip", "ip_version"]),
           ("ping_rtt_median_ms", ["target", "ip", "ip_version"]),
           ("ping_rtt_std_deviation_ms", ["target", "ip", "ip_version"]),
           ("ping_loss_percent", ["target", "ip", "ip_version"])] := by
  refine ⟨?_, ?_, by decide⟩
  · rw [(Collect_emittedFor R order p exported key m horder hkeys hmem hdone).2, hkey]
    have hpos : 0 < m.PacketsSent := by omega
    simp [entrySamples, rttSamples, lossSample, hsent, loss_value_pos R _ _ hpos]
  · intro h0
    rw [h0]
    simp [R.zero]

theorem collect_full_success_witness :
    emittedFor "example.com 93.184.216.34 4"
        (Collect Rounding.exact id ⟨none⟩
          (some [("example.com 93.184.216.34 4", ⟨10, 0, 1, 5, 3, 3, 2⟩)])).2.sent
      = [⟨rttDesc, .GaugeValue, .finite 1, ["example.com", "93.184.216.34", "4", "best"]⟩,
         ⟨bestDesc, .GaugeValue, .finite 1, ["example.com", "93.184.216.34", "4"]⟩,
         ⟨rttDesc, .GaugeValue, .finite 5, ["example.com", "93.184.216.34", "4", "worst"]⟩,
         ⟨worstDesc, .GaugeValue, .finite 5, ["example.com", "93.184.216.34", "4"]⟩,
         ⟨rttDesc, .GaugeValue, .finite 3, ["example.com", "93.184.216.34", "4", "mean"]⟩,
         ⟨meanDesc, .GaugeValue, .finite 3, ["example.com", "93.184.216.34", "4"]⟩,
         ⟨rttDesc, .GaugeValue, .finite 3, ["example.com", "93.184.216.34", "4", "median"]⟩,
         ⟨medianDesc, .GaugeValue, .finite 3, ["example.com", "93.184.216.34", "4"]⟩,
         ⟨rttDesc, .GaugeValue, .finite 2, ["example.com", "93.184.216.34", "4", "std_dev"]⟩,
         ⟨stddevDesc, .GaugeValue, .finite 2, ["example.com", "93.184.216.34", "4"]⟩,
         ⟨lossDesc, .GaugeValue, .finite 0, ["example.com", "93.184.216.34", "4"]⟩] := by
  have h := collect_full_success Rounding.exact id ⟨none⟩
    (some [("example.com 93.184.216.34 4", ⟨10, 0, 1, 5, 3, 3, 2⟩)])
    "example.com 93.184.216.34 4" "example.com" "93.184.216.34" "4" ⟨10, 0, 1, 5, 3, 3, 2⟩
    (fun es => List.Perm.refl es) (by decide) (by decide) (by decide) (by decide) (by decide)
  rw [h.1, h.2.1 rfl]

/-- C3: for every entry of the cache, a scrape that completes emits no round-trip
sample for the key unless `sent > lost` (neither under a dedicated descriptor nor
under the legacy one); and when `sent > 0` and `lost = sent` it emits for the key
exactly one sample, the loss sample, with value 1. -/
theorem collect_total_loss (R : Rounding)
    (order : List (String × Metrics) → List (String × Metrics))
    (p : pingCollector) (exported : MetricsMap) (key : String) (m : Metrics)
    (horder : ∀ es, (order es).Perm es)
    (hkeys : ((Collect R order p exported).1.metrics.entries.map Prod.fst).Nodup)
    (hmem : (key, m) ∈ (Collect R order p exported).1.metrics.entries)
    (hdone : (Collect R order p exported).2.panicked = none) :
    (¬ m.PacketsSent > m.PacketsLost →
      ∀ s ∈ emittedFor key (Collect R order p exported).2.sent,
        s.desc ∉ [rttDesc, bestDesc, worstDesc, meanDesc, medianDesc, stddevDesc])
    ∧ (0 < m.PacketsSent → m.PacketsLost = m.PacketsSent →
        emittedFor key (Collect R order p exported).2.sent
          = [⟨lossDesc, .GaugeValue, .finite 1, SplitN key ' ' 3⟩]) := by
  rw [(Collect_emittedFor R order p exported key m horder hkeys hmem hdone).2]
  constructor
  · intro hle s hs
    simp only [entrySamples, hle, if_false, List.nil_append, List.mem_singleton] at hs
    subst hs
    simp only [lossSample]
    decide
  · intro hpos heq
    have hs := rnd_nat_pos R m.PacketsSent hpos
    simp [entrySamples, lossSample, heq, loss_value_pos R _ _ hpos, div_self (ne_of_gt hs),
      R.one]

theorem collect_total_loss_witness :
    emittedFor "example.com 93.184.216.34 4"
        (Collect Rounding.exact id ⟨none⟩
          (some [("example.com 93.184.216.34 4", ⟨10, 10, 0, 0, 0, 0, 0⟩)])).2.sent
      = [⟨lossDesc, .GaugeValue, .finite 1, SplitN "example.com 93.184.216.34 4" ' ' 3⟩] :=
  (collect_total_loss Rounding.exact id ⟨none⟩
    (some [("example.com 93.184.216.34 4", ⟨10, 10, 0, 0, 0, 0, 0⟩)])
    "example.com 93.184.216.34 4" ⟨10, 10, 0, 0, 0, 0, 0⟩
    (fun es => List.Perm.refl es) (by decide) (by decide) (by decide)).2 (by decide) rfl

/-- C4: the cache after `Collect` is the export itself when the export is non-empty,
and the prior cache, unchanged, when the export is empty; in the first case the
entries after the call are exactly those of the export, so no other key of the prior
cache survives. -/
theorem collect_cache_all_or_nothing (R : Rounding)
    (order : List (String × Metrics) → List (String × Metrics))
    (p : pingCollector) (exported : MetricsMap) :
    (0 < len exported →
      (Collect R order p exported).1.metrics = exported ∧
      ∀ e, e ∈ (Collect R order p exported).1.metrics.entries ↔ e ∈ exported.entries)
    ∧ (len exported = 0 → (Collect R order p exported).1.metrics = p.metrics) := by
  rw [Collect_fst]
  constructor
  · intro h
    simp [h]
  · intro h
    simp [h]

theorem collect_cache_all_or_nothing_witness :
    (Collect Rounding.exact id ⟨some [("old 10.0.0.1 4", ⟨5, 1, 1, 2, 1, 1, 0⟩)]⟩
        (some [("new 10.0.0.2 4", ⟨3, 0, 1, 1, 1, 1, 0⟩)])).1.metrics
      = some [("new 10.0.0.2 4", ⟨3, 0, 1, 1, 1, 1, 0⟩)]
    ∧ (Collect Rounding.exact id ⟨some [("old 10.0.0.1 4", ⟨5, 1, 1, 2, 1, 1, 0⟩)]⟩
        (some [])).1.metrics
      = some [("old 10.0.0.1 4", ⟨5, 1, 1, 2, 1, 1, 0⟩)] :=
  ⟨((collect_cache_all_or_nothing Rounding.exact id
      ⟨some [("old 10.0.0.1 4", ⟨5, 1, 1, 2, 1, 1, 0⟩)]⟩
      (some [("new 10.0.0.2 4", ⟨3, 0, 1, 1, 1, 1, 0⟩)])).1 (by decide)).1,
   (collect_cache_all_or_nothing Rounding.exact id
      ⟨some [("old 10.0.0.1 4", ⟨5, 1, 1, 2, 1, 1, 0⟩)]⟩ (some [])).2 (by decide)⟩

/-- C5: let a first scrape run with a non-empty export and complete, and let the next
scrape run with an empty export. Whatever order `range` takes in either scrape, the
second one leaves the cache as it is, completes, emits for every key exactly the
samples the first one emitted for that key, and emits the same samples overall; with
the same visiting order its whole output is identical. -/
theorem collect_fallback_idempotent (R : Rounding)
    (order₁ order₂ : List (String × Metrics) → List (String × Metrics))
    (p : pingCollector) (exported empty : MetricsMap)
    (horder₁ : ∀ es, (order₁ es).Perm es) (horder₂ : ∀ es, (order₂ es).Perm es)
    (hne : 0 < len exported) (hempty : len empty = 0)
    (hkeys : (exported.entries.map Prod.fst).Nodup)
    (hdone : (Collect R order₁ p exported).2.panicked = none) :
    (Collect R order₂ (Collect R order₁ p exported).1 empty).1 = (Collect R order₁ p exported).1
    ∧ (Collect R order₂ (Collect R order₁ p exported).1 empty).2.panicked = none
    ∧ (∀ key, emittedFor key (Collect R order₂ (Collect R order₁ p exported).1 empty).2.sent
          = emittedFor key (Collect R order₁ p exported).2.sent)
    ∧ (Collect R order₂ (Collect R order₁ p exported).1 empty).2.sent.Perm
          (Collect R order₁ p exported).2.sent
    ∧ (order₂ = order₁ →
        (Collect R order₂ (Collect R order₁ p exported).1 empty).2
          = (Collect R order₁ p exported).2) := by
  have hfst : (Collect R order₂ (Collect R order₁ p exported).1 empty).1
      = (Collect R order₁ p exported).1 := by
    rw [Collect_fst R order₂]
    simp [hempty]
  have hc : (Collect R order₁ p exported).1.metrics = exported := by
    rw [Collect_fst]
    simp [hne]
  have h1 := Collect_snd R order₁ p exported horder₁
  have h2 := Collect_snd R order₂ (Collect R order₁ p exported).1 empty horder₂
  rw [hfst] at h2
  rw [hc] at h1 h2
  rw [h1] at hdone
  have hwf₁ := (collectLoop_panicked_none_iff R [] _).mp hdone
  have hp₁ := horder₁ exported.entries
  have hp₂ := horder₂ exported.entries
  have hwf : ∀ e ∈ exported.entries, (SplitN e.1 ' ' 3).length = 3 :=
    fun e he => hwf₁ e (hp₁.mem_iff.mpr he)
  have hwf₂ : ∀ e ∈ order₂ exported.entries, (SplitN e.1 ' ' 3).length = 3 :=
    fun e he => hwf e (hp₂.mem_iff.mp he)
  have e1 : (Collect R order₁ p exported).2 = ⟨loopSamples R (order₁ exported.entries), none⟩ := by
    rw [h1, show Chan.empty = ⟨[], none⟩ from rfl, collectLoop_good R [] _ hwf₁]
    rfl
  have e2 : (Collect R order₂ (Collect R order₁ p exported).1 empty).2
      = ⟨loopSamples R (order₂ exported.entries), none⟩ := by
    rw [h2, show Chan.empty = ⟨[], none⟩ from rfl, collectLoop_good R [] _ hwf₂]
    rfl
  refine ⟨hfst, ?_, ?_, ?_, ?_⟩
  · rw [e2]
  · intro key
    rw [e1, e2]
    have hnd₁ := (hp₁.map Prod.fst).nodup_iff.mpr hkeys
    have hnd₂ := (hp₂.map Prod.fst).nodup_iff.mpr hkeys
    by_cases hk : key ∈ exported.entries.map Prod.fst
    · obtain ⟨e, he, hek⟩ := List.mem_map.mp hk
      obtain ⟨k, m⟩ := e
      simp only at hek
      subst hek
      rw [emittedFor_loopSamples R _ k m hwf₁ hnd₁ (hp₁.mem_iff.mpr he),
        emittedFor_loopSamples R _ k m hwf₂ hnd₂ (hp₂.mem_iff.mpr he)]
    · rw [emittedFor_loopSamples_absent R _ key hwf₁
          (fun h => hk ((hp₁.map Prod.fst).mem_iff.mp h)),
        emittedFor_loopSamples_absent R _ key hwf₂
          (fun h => hk ((hp₂.map Prod.fst).mem_iff.mp h))]
  · rw [e1, e2]
    exact loopSamples_perm R (hp₂.trans hp₁.symm)
  · intro ho
    rw [e1, e2, ho]

theorem collect_fallback_idempotent_witness :
    (Collect Rounding.exact List.reverse
        (Collect Rounding.exact id ⟨none⟩
          (some [("a 10.0.0.1 4", ⟨10, 0, 1, 5, 3, 3, 2⟩), ("b ::1 6", ⟨4, 4, 0, 0, 0, 0, 0⟩)])).1
        none).2.sent.Perm
      (Collect Rounding.exact id ⟨none⟩
          (some [("a 10.0.0.1 4", ⟨10, 0, 1, 5, 3, 3, 2⟩), ("b ::1 6", ⟨4, 4, 0, 0, 0, 0, 0⟩)])).2.sent :=
  (collect_fallback_idempotent Rounding.exact id List.reverse ⟨none⟩
    (some [("a 10.0.0.1 4", ⟨10, 0, 1, 5, 3, 3, 2⟩), ("b ::1 6", ⟨4, 4, 0, 0, 0, 0, 0⟩)]) none
    (fun es => List.Perm.refl es) (fun es => List.reverse_perm es)
    (by decide) (by decide) (by decide) (by decide)).2.2.2.1

/-- C6, as stated, fails: a host that contains a space does not come back. The key
built from host `my host`, ip `10.0.0.1` and version `4` splits into `my`, `host` and
`10.0.0.1 4`. -/
theorem probeKey_roundtrip_fails_with_space :
    SplitN (probeKey "my host" "10.0.0.1" "4") ' ' 3 = ["my", "host", "10.0.0.1 4"]
    ∧ SplitN (probeKey "my host" "10.0.0.1" "4") ' ' 3 ≠ ["my host", "10.0.0.1", "4"] := by
  decide

/-- C6, amended: for every host and ip that contain no space character, and every
ipVersion, the key `host + " " + ip + " " + ipVersion` is split by `Collect` into
exactly `[host, ip, ipVersion]`, and every sample the iteration of that key sends
carries these three as the values of the labels `target`, `ip`, `ip_version`. -/
theorem probeKey_roundtrip (host ip ipVersion : String)
    (hhost : ' ' ∉ host.data) (hip : ' ' ∉ ip.data) :
    SplitN (probeKey host ip ipVersion) ' ' 3 = [host, ip, ipVersion]
    ∧ ∀ (R : Rounding) (sent : List Metric) (m : Metrics),
        ∃ new, collectEntry R ⟨sent, none⟩ (probeKey host ip ipVersion) m = ⟨sent ++ new, none⟩
          ∧ new ≠ []
          ∧ ∀ s ∈ new, s.labelValues.take 3 = [host, ip, ipVersion]
              ∧ s.desc.variableLabels.take 3 = ["target", "ip", "ip_version"] := by
  have hsplit := SplitN_probeKey host ip ipVersion hhost hip
  refine ⟨hsplit, ?_⟩
  intro R sent m
  have hlen : (SplitN (probeKey host ip ipVersion) ' ' 3).length = 3 := by rw [hsplit]; rfl
  refine ⟨entrySamples R (SplitN (probeKey host ip ipVersion) ' ' 3) m,
    collectEntry_good R sent _ m hlen, by simp [entrySamples], ?_⟩
  intro s hs
  refine ⟨by rw [take_entrySamples R _ m hlen s hs, hsplit], ?_⟩
  rcases entrySamples_mem R _ m s hs with h | h
  · exact (rttSamples_desc _ m s h.1).2
  · subst h
    rfl

theorem probeKey_roundtrip_witness :
    SplitN (probeKey "example.com" "93.184.216.34" "4") ' ' 3
      = ["example.com", "93.184.216.34", "4"] :=
  (probeKey_roundtrip "example.com" "93.184.216.34" "4" (by decide) (by decide)).1

/-- C7, as stated, fails: with the single cache entry `example.org 2001:db8::1 6` whose
statistics have `sent = 0` and `lost = 0`, the one sample `Collect` emits is a loss
sample whose value is NaN, which is not in `[0, 1]`. -/
theorem collect_loss_outside_unit_interval :
    ∃ s ∈ (Collect Rounding.exact id ⟨none⟩
        (some [("example.org 2001:db8::1 6", ⟨0, 0, 0, 0, 0, 0, 0⟩)])).2.sent,
      s.desc = lossDesc ∧ s.value = .nan ∧ ¬ s.value.inUnitInterval := by
  refine ⟨⟨lossDesc, .GaugeValue, .nan, ["example.org", "2001:db8::1", "6"]⟩, by decide, rfl,
    rfl, ?_⟩
  simp [F64.inUnitInterval]

/-- C7, amended: for every entry of the cache whose statistics have `sent > 0` and
`lost ≤ sent`, a scrape that completes emits a loss sample for the key, and the value
of every loss sample of the key is the `float64` quotient of `float64(lost)` by
`float64(sent)`, a finite number of the closed interval `[0, 1]`; it is `lost / sent`
itself when that quotient and the two counts are representable. -/
theorem collect_loss_value (R : Rounding)
    (order : List (String × Metrics) → List (String × Metrics))
    (p : pingCollector) (exported : MetricsMap) (key : String) (m : Metrics)
    (horder : ∀ es, (order es).Perm es)
    (hkeys : ((Collect R order p exported).1.metrics.entries.map Prod.fst).Nodup)
    (hmem : (key, m) ∈ (Collect R order p exported).1.metrics.entries)
    (hdone : (Collect R order p exported).2.panicked = none)
    (hpos : 0 < m.PacketsSent) (hle : m.PacketsLost ≤ m.PacketsSent) :
    (∃ s ∈ emittedFor key (Collect R order p exported).2.sent, s.desc = lossDesc)
    ∧ (∀ s ∈ emittedFor key (Collect R order p exported).2.sent, s.desc = lossDesc →
        s.value = .finite (R.rnd (R.rnd m.PacketsLost / R.rnd m.PacketsSent))
        ∧ s.value.inUnitInterval)
    ∧ (R.rnd m.PacketsLost = m.PacketsLost → R.rnd m.PacketsSent = m.PacketsSent →
        R.rnd ((m.PacketsLost : ℚ) / m.PacketsSent) = (m.PacketsLost : ℚ) / m.PacketsSent →
        R.rnd (R.rnd m.PacketsLost / R.rnd m.PacketsSent) = (m.PacketsLost : ℚ) / m.PacketsSent) := by
  rw [(Collect_emittedFor R order p exported key m horder hkeys hmem hdone).2]
  have hb := loss_quotient_bounds R m.PacketsLost m.PacketsSent hpos hle
  have hv := loss_value_pos R m.PacketsLost m.PacketsSent hpos
  refine ⟨⟨lossSample R (SplitN key ' ' 3) m, by simp [entrySamples], rfl⟩, ?_, ?_⟩
  · intro s hs hd
    have hval : s.value = .finite (R.rnd (R.rnd m.PacketsLost / R.rnd m.PacketsSent)) := by
      rcases entrySamples_mem R _ m s hs with h | h
      · exact absurd hd (rttSamples_desc _ m s h.1).1
      · subst h
        exact hv
    refine ⟨hval, ?_⟩
    rw [hval]
    exact hb
  · intro h1 h2 h3
    rw [h1, h2, h3]

theorem collect_loss_value_witness :
    ∃ s ∈ emittedFor "h 10.0.0.1 4"
        (Collect Rounding.exact id ⟨none⟩ (some [("h 10.0.0.1 4", ⟨4, 1, 1, 5, 3, 3, 2⟩)])).2.sent,
      s.desc = lossDesc :=
  (collect_loss_value Rounding.exact id ⟨none⟩ (some [("h 10.0.0.1 4", ⟨4, 1, 1, 5, 3, 3, 2⟩)])
    "h 10.0.0.1 4" ⟨4, 1, 1, 5, 3, 3, 2⟩ (fun es => List.Perm.refl es)
    (by decide) (by decide) (by decide) (by decide) (by decide)).1

/-- C8: when the cache is nil or empty and the export is empty, `Collect` sends no
metric, does not panic, and leaves the collector as it is, the cache still empty;
this holds whatever order `range` would take. -/
theorem collect_no_data (R : Rounding)
    (order : List (String × Metrics) → List (String × Metrics))
    (p : pingCollector) (exported : MetricsMap)
    (hcache : len p.metrics = 0) (hexport : len exported = 0) :
    (Collect R order p exported).2.sent = []
    ∧ (Collect R order p exported).2.panicked = none
    ∧ (Collect R order p exported).1 = p
    ∧ len (Collect R order p exported).1.metrics = 0 := by
  have h : Collect R order p exported = (p, Chan.empty) := by
    unfold Collect
    simp [hexport, hcache]
  rw [h]
  exact ⟨rfl, rfl, rfl, hcache⟩

theorem collect_no_data_witness :
    (Collect Rounding.exact id ⟨none⟩ (some [])).2.sent = []
    ∧ (Collect Rounding.exact id ⟨none⟩ (some [])).2.panicked = none
    ∧ (Collect Rounding.exact id ⟨none⟩ (some [])).1 = ⟨none⟩
    ∧ len (Collect Rounding.exact id ⟨none⟩ (some [])).1.metrics = 0 :=
  collect_no_data Rounding.exact id ⟨none⟩ (some []) (by decide) (by decide)

theorem rttSamples_labels (l : List String) (m : Metrics) (hl : l.length = 3) :
    ∀ s ∈ rttSamples l m,
      s.labelValues.length = s.desc.variableLabels.length
      ∧ (s.desc = rttDesc → s.labelValues.length = 4)
      ∧ (s.desc ≠ rttDesc → s.labelValues.length = 3) := by
  intro s hs
  simp only [rttSamples, List.mem_cons, List.mem_singleton, List.not_mem_nil, or_false] at hs
  rcases hs with h | h | h | h | h | h | h | h | h | h <;> subst h <;> dsimp only <;>
    refine ⟨by simp [hl, rttDesc, bestDesc, worstDesc, meanDesc, medianDesc, stddevDesc,
      labelNames], ?_, ?_⟩ <;>
    first
      | (intro _; simp [hl]; done)
      | (intro h; exact absurd h (by decide))

/-- C10: `strings.SplitN(key, " ", 3)` yields at most three components, and exactly
three if and only if the key has at least two spaces. For a key with at least two
spaces an iteration of the loop of `Collect` builds every sample without a panic,
each with as many label values as its descriptor has labels: 4 under the legacy
descriptor, 3 under the others. For a key with fewer than two spaces the number of
components differs from the number of label names and the iteration panics on the
label-cardinality check before sending anything. Hence a scrape completes without
panic exactly when every key of the cache has at least two spaces. -/
theorem collect_label_count_safety :
    (∀ key : String, (SplitN key ' ' 3).length ≤ 3
        ∧ ((SplitN key ' ' 3).length = 3 ↔ 2 ≤ spaces key))
    ∧ (∀ key : String, 2 ≤ spaces key → ∀ (R : Rounding) (sent : List Metric) (m : Metrics),
        ∃ new, collectEntry R ⟨sent, none⟩ key m = ⟨sent ++ new, none⟩
          ∧ new ≠ []
          ∧ ∀ s ∈ new, s.labelValues.length = s.desc.variableLabels.length
              ∧ (s.desc = rttDesc → s.labelValues.length = 4)
              ∧ (s.desc ≠ rttDesc → s.labelValues.length = 3))
    ∧ (∀ key : String, spaces key < 2 →
        (SplitN key ' ' 3).length ≠ labelNames.length
        ∧ ∀ (R : Rounding) (sent : List Metric) (m : Metrics),
            collectEntry R ⟨sent, none⟩ key m
              = ⟨sent, some "inconsistent label cardinality"⟩)
    ∧ (∀ (R : Rounding) (order : List (String × Metrics) → List (String × Metrics))
          (p : pingCollector) (exported : MetricsMap), (∀ es, (order es).Perm es) →
        ((Collect R order p exported).2.panicked = none
          ↔ ∀ e ∈ (Collect R order p exported).1.metrics.entries, 2 ≤ spaces e.1)) := by
  refine ⟨SplitN_three_length, ?_, ?_, ?_⟩
  · intro key hkey R sent m
    have hlen : (SplitN key ' ' 3).length = 3 := (SplitN_three_length key).2.mpr hkey
    refine ⟨entrySamples R (SplitN key ' ' 3) m, collectEntry_good R sent key m hlen,
      by simp [entrySamples], ?_⟩
    intro s hs
    rcases entrySamples_mem R _ m s hs with h | h
    · exact rttSamples_labels _ m hlen s h.1
    · subst h
      refine ⟨by simp [lossSample, hlen, lossDesc, labelNames], ?_, ?_⟩
      · intro h
        exact absurd h (by simp only [lossSample]; decide)
      · intro _
        simpa [lossSample] using hlen
  · intro key hkey
    have hlen : (SplitN key ' ' 3).length ≠ 3 := by
      intro h
      have := (SplitN_three_length key).2.mp h
      omega
    exact ⟨hlen, fun R sent m => collectEntry_bad R sent key m hlen⟩
  · intro R order p exported horder
    rw [Collect_snd R order p exported horder]
    have hperm := horder (Collect R order p exported).1.metrics.entries
    rw [show Chan.empty = ⟨[], none⟩ from rfl, collectLoop_panicked_none_iff]
    constructor
    · intro h e he
      exact (SplitN_three_length e.1).2.mp (h e (hperm.mem_iff.mpr he))
    · intro h e he
      exact (SplitN_three_length e.1).2.mpr (h e (hperm.mem_iff.mp he))

theorem collect_label_count_safety_witness :
    (SplitN "example.com 93.184.216.34 4" ' ' 3).length = 3
    ∧ collectEntry Rounding.exact ⟨[], none⟩ "example.com" ⟨10, 10, 0, 0, 0, 0, 0⟩
        = ⟨[], some "inconsistent label cardinality"⟩ :=
  ⟨(collect_label_count_safety.1 "example.com 93.184.216.34 4").2.mpr (by decide),
   (collect_label_count_safety.2.2.1 "example.com" (by decide)).2 Rounding.exact []
     ⟨10, 10, 0, 0, 0, 0, 0⟩⟩

/-! ## Properties of startMonitor and refreshDNS -/

theorem reconcileCalls_append {Err : Type} (a b : List (Event Err)) :
    reconcileCalls (a ++ b) = reconcileCalls a ++ reconcileCalls b := by
  induction a with
  | nil => rfl
  | cons x xs ih => cases x <;> simp [reconcileCalls, ih]

theorem startLoop_calls {Mon Err : Type} (env : Env Mon Err) (i : Nat) (hosts : List String)
    (st : Run Mon Err) :
    reconcileCalls (startLoop env i hosts st).trace
      = reconcileCalls st.trace ++ initialTargets env.dnsNameServer i hosts := by
  induction hosts generalizing i st with
  | nil => simp [startLoop, initialTargets]
  | cons h hs ih =>
    simp only [startLoop, initialTargets]
    rw [ih]
    cases hr : (env.addOrUpdateMonitor
        { host := h, addresses := [], delay := 10 * i * Millisecond, dns := env.dnsNameServer }
        st.monitor).2.2 <;>
      simp [reconcileCalls_append, reconcileCalls]

theorem initialTargets_host (dns : String) (i : Nat) (hosts : List String) :
    (initialTargets dns i hosts).map target.host = hosts := by
  induction hosts generalizing i with
  | nil => rfl
  | cons h hs ih => simp [initialTargets, ih]

theorem spawned_refreshDNS {Err : Type} (targets : List target) :
    spawned (refreshDNS targets : List (Event Err)) = targets := by
  induction targets with
  | nil => rfl
  | cons t ts ih => simp [refreshDNS, spawned, ih]

theorem reconcileCalls_refreshTask {Mon Err : Type} (env : Env Mon Err) (ta : target)
    (monitor : Mon) : reconcileCalls (refreshTask env ta monitor).2 = [ta] := by
  unfold refreshTask
  generalize env.addOrUpdateMonitor ta monitor = r
  obtain ⟨t, monitor, err⟩ := r
  cases err <;> rfl

theorem reconcileCalls_runTasks {Mon Err : Type} (env : Env Mon Err) (sched : List target)
    (monitor : Mon) : reconcileCalls (runTasks env sched monitor).2 = sched := by
  induction sched generalizing monitor with
  | nil => rfl
  | cons t ts ih =>
    simp only [runTasks, reconcileCalls_append, ih, reconcileCalls_refreshTask]
    rfl

/-- C9, as stated, fails: when `ping.New` returns an error, `startMonitor` returns that
error and no monitor, and calls `addOrUpdateMonitor` for no target, although one
target is configured. -/
theorem startMonitor_pinger_failure :
    (startMonitor failingPingEnv ["example.com"]).result
      = .error "listen ip4:icmp 0.0.0.0: socket: operation not permitted"
    ∧ reconcileCalls (startMonitor failingPingEnv ["example.com"]).trace = [] := by
  exact ⟨rfl, rfl⟩

theorem startLoop_monitor {Mon Err : Type} (env : Env Mon Err) (i : Nat) (hosts : List String)
    (st : Run Mon Err) :
    (startLoop env i hosts st).monitor
      = monitorAfter env (initialTargets env.dnsNameServer i hosts) st.monitor := by
  induction hosts generalizing i st with
  | nil => rfl
  | cons h hs ih =>
    simp only [startLoop, initialTargets, monitorAfter]
    rw [ih]

/-- C9, amended: whenever `ping.New` succeeds, and whatever `addOrUpdateMonitor` returns
for whichever targets, `startMonitor` returns no error and the monitor, in the state
the reconciliations of all targets leave it in, and it calls `addOrUpdateMonitor`
exactly once per configured target, in configured order, on the target built for the
host at index `i` (no address, delay `10 * i` ms, the configured name server).
Whenever `ping.New` fails, for every target list, `startMonitor` returns that error
and does nothing else: no target is reconciled. A cycle of `refreshDNS` starts exactly
one goroutine per target, in order; and whatever order the goroutines run in, each of
them calls `addOrUpdateMonitor` for its target, whether or not the others return an
error. -/
theorem startMonitor_reconciles_each_target {Mon Err : Type} (env : Env Mon Err)
    (cfgTargets : List String) :
    (∀ pinger : Unit, env.pingNew = .ok pinger →
        (startMonitor env cfgTargets).result
          = .ok (monitorAfter env (initialTargets env.dnsNameServer 0 cfgTargets)
              env.newMonitor)
        ∧ reconcileCalls (startMonitor env cfgTargets).trace
            = initialTargets env.dnsNameServer 0 cfgTargets
        ∧ (reconcileCalls (startMonitor env cfgTargets).trace).map target.host = cfgTargets)
    ∧ (∀ err : Err, env.pingNew = .error err →
        (startMonitor env cfgTargets).result = .error err
        ∧ (startMonitor env cfgTargets).trace = []
        ∧ reconcileCalls (startMonitor env cfgTargets).trace = [])
    ∧ (∀ targets : List target, spawned (refreshDNS targets : List (Event Err)) = targets)
    ∧ (∀ (targets sched : List target) (monitor : Mon), sched.Perm targets →
        (reconcileCalls (runTasks env sched monitor).2).Perm targets) := by
  refine ⟨?_, ?_, spawned_refreshDNS, ?_⟩
  · intro pinger hping
    have hcalls : reconcileCalls (startMonitor env cfgTargets).trace
        = initialTargets env.dnsNameServer 0 cfgTargets := by
      simp [startMonitor, hping, reconcileCalls_append, startLoop_calls, reconcileCalls]
    refine ⟨?_, hcalls, ?_⟩
    · simp [startMonitor, hping, startLoop_monitor]
    · rw [hcalls, initialTargets_host]
  · intro err hping
    have htrace : (startMonitor env cfgTargets).trace = [] := by
      simp [startMonitor, hping]
    refine ⟨?_, htrace, ?_⟩
    · simp [startMonitor, hping]
    · rw [htrace]
      rfl
  · intro targets sched monitor hperm
    rw [reconcileCalls_runTasks]
    exact hperm

theorem startMonitor_reconciles_each_target_witness :
    ((reconcileCalls
        (startMonitor sampleEnv ["a.example", "bad.invalid", "b.example"]).trace).map target.host
      = ["a.example", "bad.invalid", "b.example"])
    ∧ (startMonitor failingPingEnv ["a.example", "b.example"]).trace = [] :=
  ⟨((startMonitor_reconciles_each_target sampleEnv ["a.example", "bad.invalid", "b.example"]).1
      () rfl).2.2,
   ((startMonitor_reconciles_each_target failingPingEnv ["a.example", "b.example"]).2.1
      "listen ip4:icmp 0.0.0.0: socket: operation not permitted" rfl).2.1⟩

end PingExporter
